import Mathlib

/-
Shallow embedding of the decision logic of the PookieMoni expense tracker
(src/config_utils.py, src/user_utils.py, src/app.py, src/pages), together
with theorems settling the frozen claims about it.

Python strings are modelled as lists of characters (type Word below); the
lowercasing used by the source only matters on the ASCII range for the data
the configuration holds, so str.lower is modelled as ASCII lowercasing.
Monetary amounts (Python floats) are modelled as rationals. Python dicts,
which preserve insertion order, are modelled as association lists with the
dict operations translated one by one. Persistence (the TOML file and the
Google Sheets connection) is out of scope: mutating operations return the
new in-memory configuration, and ledger reads are passed in as Option
values (none models a read that raised an exception).
-/

namespace PookieMoni

/-- Word models a Python string as its list of characters. -/
abbrev Word := List Char

/-- lowerChar models str.lower on one character, on the ASCII range. -/
def lowerChar (c : Char) : Char :=
  if 65 ≤ c.toNat ∧ c.toNat ≤ 90 then Char.ofNat (c.toNat + 32) else c

/-- lowerW models the Python expression s.lower(). -/
def lowerW (s : Word) : Word := s.map lowerChar

/-- hasSubstr needle hay models the Python expression needle in hay for
strings: containment as a contiguous substring (the empty needle is
contained in every string). -/
def hasSubstr (needle : Word) : Word → Bool
  | [] => needle.isEmpty
  | c :: t => needle.isPrefixOf (c :: t) || hasSubstr needle t

/-- charLe compares two characters by code point. -/
def charLe (a b : Char) : Bool := a.toNat ≤ b.toNat

/-- wordLe is lexicographic order on words by code point, the order Python
uses to compare strings. -/
def wordLe : Word → Word → Bool
  | [], _ => true
  | _ :: _, [] => false
  | a :: s, b :: t => if a = b then wordLe s t else charLe a b

/-- insertSorted inserts a word into a list, before the first position where
it compares below the head. -/
def insertSorted (x : Word) : List Word → List Word
  | [] => [x]
  | y :: t => if wordLe x y then x :: y :: t else y :: insertSorted x t

/-- sortWords models the Python call list.sort() on a list of strings.
Python uses a stable sort by the string order; since elements that compare
equal here are identical strings, every correct sort produces the same
list, so a structurally recursive insertion sort is an exact model. -/
def sortWords (l : List Word) : List Word := l.foldr insertSorted []

/-- lookupKey models the Python expression d.get(k) / d[k] on a dict that
is represented as an association list in insertion order. -/
def lookupKey (l : List (Word × α)) (k : Word) : Option α :=
  (l.find? (fun e => e.1 == k)).map Prod.snd

/-- hasKey models the Python expression k in d on a dict. -/
def hasKey (l : List (Word × α)) (k : Word) : Bool := (lookupKey l k).isSome

/-- keysOf models the Python expression list(d.keys()). -/
def keysOf (l : List (Word × α)) : List Word := l.map Prod.fst

/-- setKey models in-place assignment d[k] = v to a key that is already
present: the entry is updated where it stands, the iteration order is
unchanged. -/
def setKey (l : List (Word × α)) (k : Word) (v : α) : List (Word × α) :=
  l.map (fun e => if e.1 == k then (e.1, v) else e)

/-- CatData embeds one value of the categories table of config.toml:
the stores list and the keywords list of one category
(src/config_utils.py, default shape in ConfigManager). -/
structure CatData where
  stores : List Word
  keywords : List Word
deriving DecidableEq

/-- Settings embeds the settings table of config.toml. -/
structure Settings where
  default_category : Word
  auto_categorize : Bool
deriving DecidableEq

/-- BudgetDef embeds one value of the budgets table, as written by
set_budget in src/config_utils.py. -/
structure BudgetDef where
  amount : ℚ
  period : Word
  start_date : Word
  is_active : Bool
deriving DecidableEq

/-- BudgetSettings embeds the thresholds returned by get_budget_settings in
src/config_utils.py. -/
structure BudgetSettings where
  warning_threshold : ℤ
  alert_threshold : ℤ
deriving DecidableEq

/-- Config embeds the in-memory configuration dict of ConfigManager.
The categories and budgets dicts keep insertion order, hence the
association lists. -/
structure Config where
  settings : Settings
  categories : List (Word × CatData)
  budgets : List (Word × BudgetDef)
  budget_settings : BudgetSettings
deriving DecidableEq

/-- get_categories embeds ConfigManager.get_categories
(src/config_utils.py line 80): the category names in dict order. -/
def get_categories (c : Config) : List Word := keysOf c.categories

/-- storeMatch is the membership test of the first loop of
auto_categorize_store: the lowered store name against the lowered store
list of one category. -/
def storeMatch (s : Word) (d : CatData) : Bool := (d.stores.map lowerW).contains s

/-- keywordMatch is the test of the second loop of auto_categorize_store:
some keyword of the category, lowered, is a substring of the lowered store
name. -/
def keywordMatch (s : Word) (d : CatData) : Bool :=
  d.keywords.any (fun k => hasSubstr (lowerW k) s)

/-- auto_categorize_store embeds ConfigManager.auto_categorize_store
(src/config_utils.py lines 106 to 135): if auto categorization is off,
return the default category; otherwise first try a case-insensitive exact
match against every store list in category order, then a case-insensitive
keyword substring match in category order, then fall back to the default
category. -/
def auto_categorize_store (c : Config) (store_name : Word) : Word :=
  if !c.settings.auto_categorize then c.settings.default_category
  else
    match c.categories.find? (fun e => storeMatch (lowerW store_name) e.2) with
    | some e => e.1
    | none =>
      match c.categories.find? (fun e => keywordMatch (lowerW store_name) e.2) with
      | some e => e.1
      | none => c.settings.default_category

/-- add_store_to_category embeds ConfigManager.add_store_to_category
(src/config_utils.py lines 137 to 160): fail if the category is missing;
fail if the store is already present (case-sensitive exact comparison);
otherwise append the store and re-sort the store list. The Bool is the
return value, the Config is the in-memory state after the call. -/
def add_store_to_category (c : Config) (category store_name : Word) : Bool × Config :=
  match lookupKey c.categories category with
  | none => (false, c)
  | some d =>
    if d.stores.contains store_name then (false, c)
    else
      let d2 : CatData := { d with stores := sortWords (d.stores ++ [store_name]) }
      (true, { c with categories := setKey c.categories category d2 })

/-- remove_store_from_category embeds
ConfigManager.remove_store_from_category (src/config_utils.py lines 162 to
182): remove the first occurrence of the store if present. -/
def remove_store_from_category (c : Config) (category store_name : Word) : Bool × Config :=
  match lookupKey c.categories category with
  | none => (false, c)
  | some d =>
    if d.stores.contains store_name then
      let d2 : CatData := { d with stores := d.stores.erase store_name }
      (true, { c with categories := setKey c.categories category d2 })
    else (false, c)

/-- add_category embeds ConfigManager.add_category (src/config_utils.py
lines 200 to 221): fail if the name exists, otherwise append a category
with empty store and keyword lists at the end of the dict. -/
def add_category (c : Config) (category_name : Word) : Bool × Config :=
  if hasKey c.categories category_name then (false, c)
  else (true, { c with categories := c.categories ++ [(category_name, ⟨[], []⟩)] })

/-- remove_category embeds ConfigManager.remove_category
(src/config_utils.py lines 223 to 241): delete the entry if present. -/
def remove_category (c : Config) (category_name : Word) : Bool × Config :=
  if hasKey c.categories category_name then
    (true, { c with categories := c.categories.eraseP (fun e => e.1 == category_name) })
  else (false, c)

/-- rename_category embeds ConfigManager.rename_category
(src/config_utils.py lines 339 to 364): when the old name exists and the
new one does not, assign the data under the new name (a fresh dict key, so
it is appended at the end), delete the old key, and redirect the default
category if it pointed at the old name. -/
def rename_category (c : Config) (old_name new_name : Word) : Bool × Config :=
  if hasKey c.categories old_name && !hasKey c.categories new_name then
    match lookupKey c.categories old_name with
    | none => (false, c)
    | some d =>
      let cats := (c.categories ++ [(new_name, d)]).eraseP (fun e => e.1 == old_name)
      let st :=
        if c.settings.default_category == old_name then
          { c.settings with default_category := new_name }
        else c.settings
      (true, { c with categories := cats, settings := st })
  else (false, c)

/-- BudgetStatus embeds the dict returned by calculate_budget_status. The
period field is absent (none) in the no-budget branch of the source. -/
structure BudgetStatus where
  has_budget : Bool
  budget : ℚ
  spent : ℚ
  remaining : ℚ
  percentage : ℚ
  status : Word
  period : Option Word
deriving DecidableEq

/-- calculate_budget_status embeds calculate_budget_status
(src/config_utils.py lines 692 to 742): no budget for the category gives
the no_budget record; otherwise percentage is spent over amount times 100
(0 when the amount is 0), remaining is amount minus spent, and the label is
alert when the percentage reaches the alert threshold, else warning when it
reaches the warning threshold, else ok. -/
def calculate_budget_status (c : Config) (category : Word) (spent_amount : ℚ) : BudgetStatus :=
  match lookupKey c.budgets category with
  | none => ⟨false, 0, spent_amount, 0, 0, "no_budget".data, none⟩
  | some b =>
    let percentage : ℚ := if b.amount = 0 then 0 else spent_amount / b.amount * 100
    let remaining : ℚ := b.amount - spent_amount
    let status : Word :=
      if percentage ≥ (c.budget_settings.alert_threshold : ℚ) then "alert".data
      else if percentage ≥ (c.budget_settings.warning_threshold : ℚ) then "warning".data
      else "ok".data
    ⟨true, b.amount, spent_amount, remaining, percentage, status, some b.period⟩

/-- Txn embeds one row of the period-filtered expenses frame in src/app.py:
only the Category and Amount columns take part in the budget overview. -/
structure Txn where
  category : Word
  amount : ℚ
deriving DecidableEq

/-- catSpend is the total amount of the transactions of one category. -/
def catSpend (txns : List Txn) (k : Word) : ℚ :=
  ((txns.filter (fun t => t.category == k)).map Txn.amount).sum

/-- spending_by_category embeds the pandas expression
period_expenses.groupby(Category)(Amount).sum().to_dict() of src/app.py
line 208: one entry per distinct category of the frame, holding the sum of
the amounts of that category. -/
def spending_by_category (txns : List Txn) : List (Word × ℚ) :=
  ((txns.map Txn.category).dedup).map (fun k => (k, catSpend txns k))

/-- total_budgeted embeds src/app.py line 215: the sum of the amounts of
the budget definitions whose is_active flag is true. -/
def total_budgeted (budgets : List (Word × BudgetDef)) : ℚ :=
  ((budgets.filter (fun e => e.2.is_active)).map (fun e => e.2.amount)).sum

/-- total_spent embeds src/app.py line 216: the sum of the values of the
spending-by-category dict. -/
def total_spent (txns : List Txn) : ℚ :=
  ((spending_by_category txns).map Prod.snd).sum

/-- Modelled from the spec, for comparison in claim C1 only: the variant of
total_spent the spec describes, restricted to categories that have a budget
defined. This is NOT what src/app.py computes. -/
def total_spent_budgeted_spec (budgets : List (Word × BudgetDef)) (txns : List Txn) : ℚ :=
  (((spending_by_category txns).filter (fun e => hasKey budgets e.1)).map Prod.snd).sum

/-- RecurringItem embeds one row of the recurrings frame used by the
summary metrics of src/pages/4 Recurrings (view, lines 110 to 135). -/
structure RecurringItem where
  name : Word
  amount : ℚ
  frequency : Word
  status : Word
deriving DecidableEq

/-- est_yearly_cost embeds src/pages/4 Recurrings line 133: the sum of the
Amount column over the whole frame times 12, or 0 for an empty frame. -/
def est_yearly_cost (items : List RecurringItem) : ℚ :=
  if items.isEmpty then 0 else ((items.map (fun i => i.amount)).sum) * 12

/-- Modelled from the spec, for comparison in claim C2 only: the yearly
estimate the spec describes, summing active items only. This is NOT what
the source computes. -/
def yearly_cost_active_spec (items : List RecurringItem) : ℚ :=
  (((items.filter (fun i => i.status == "Active".data)).map (fun i => i.amount)).sum) * 12

/-- tagRows models adding the constant provenance column to every row of a
partition, as in the underscore-source assignments of
get_user_and_shared_data. -/
def tagRows (rows : List α) (tag : Word) : List (α × Word) :=
  rows.map (fun r => (r, tag))

/-- get_user_and_shared_data embeds get_user_and_shared_data
(src/user_utils.py lines 87 to 126) for a private identity. Each argument
is the outcome of reading one partition: none models the read raising (the
worksheet does not exist), some rows a successful read. A successful
nonempty read contributes its rows stamped with the partition tag; a failed
or empty read contributes nothing; the contributions are concatenated,
private partition first. -/
def get_user_and_shared_data (userRead sharedRead : Option (List α)) : List (α × Word) :=
  let dfs : List (List (α × Word)) :=
    (match userRead with
     | some rows => if rows.isEmpty then [] else [tagRows rows "personal".data]
     | none => []) ++
    (match sharedRead with
     | some rows => if rows.isEmpty then [] else [tagRows rows "shared".data]
     | none => [])
  dfs.flatten

/-- isLeap embeds the Gregorian leap year rule used by the Python calendar
module: divisible by 4 and not by 100, or divisible by 400. -/
def isLeap (y : Nat) : Bool := (y % 4 == 0 && y % 100 != 0) || (y % 400 == 0)

/-- daysInMonth embeds calendar.monthrange(y, m)[1]: the number of days of
month m of year y. -/
def daysInMonth (y : Nat) : Nat → Nat
  | 1 => 31
  | 2 => if isLeap y then 29 else 28
  | 3 => 31
  | 4 => 30
  | 5 => 31
  | 6 => 30
  | 7 => 31
  | 8 => 31
  | 9 => 30
  | 10 => 31
  | 11 => 30
  | 12 => 31
  | _ => 0

/-- daysBeforeMonth y m is the number of days of year y that precede the
first day of month m. -/
def daysBeforeMonth (y : Nat) : Nat → Nat
  | 0 => 0
  | 1 => 0
  | m + 2 => daysBeforeMonth y (m + 1) + daysInMonth y (m + 1)

/-- daysBeforeYear is the number of days between day 1 of year 1 and day 1
of the given year, following the closed form the Python datetime module
uses for the proleptic Gregorian calendar. -/
def daysBeforeYear (year : Nat) : Nat :=
  let y := year - 1
  y * 365 + y / 4 - y / 100 + y / 400

/-- DateTime embeds a Python datetime value: a calendar date plus a time of
day down to microseconds. -/
structure DateTime where
  year : Nat
  month : Nat
  day : Nat
  hour : Nat
  minute : Nat
  second : Nat
  microsecond : Nat
deriving DecidableEq

/-- DateValid states that the date part is a real proleptic Gregorian date,
the invariant every Python datetime satisfies. -/
def DateValid (d : DateTime) : Prop :=
  1 ≤ d.year ∧ 1 ≤ d.month ∧ d.month ≤ 12 ∧ 1 ≤ d.day ∧ d.day ≤ daysInMonth d.year d.month

instance (d : DateTime) : Decidable (DateValid d) := by
  unfold DateValid
  infer_instance

/-- toOrdinal embeds date.toordinal(): day 1 of year 1 has ordinal 1. -/
def toOrdinal (d : DateTime) : Nat :=
  daysBeforeYear d.year + daysBeforeMonth d.year d.month + d.day

/-- weekday embeds date.weekday(): 0 is Monday through 6 is Sunday. Day 1
of year 1 is a Monday. -/
def weekday (d : DateTime) : Nat := (toOrdinal d + 6) % 7

/-- prevDay moves the date part one calendar day back, leaving the time of
day unchanged. -/
def prevDay (d : DateTime) : DateTime :=
  if 2 ≤ d.day then { d with day := d.day - 1 }
  else if 2 ≤ d.month then { d with month := d.month - 1, day := daysInMonth d.year (d.month - 1) }
  else { d with year := d.year - 1, month := 12, day := 31 }

/-- nextDay moves the date part one calendar day forward, leaving the time
of day unchanged. -/
def nextDay (d : DateTime) : DateTime :=
  if d.day < daysInMonth d.year d.month then { d with day := d.day + 1 }
  else if d.month < 12 then { d with month := d.month + 1, day := 1 }
  else { d with year := d.year + 1, month := 1, day := 1 }

/-- subDays models subtracting a timedelta of n whole days. -/
def subDays : Nat → DateTime → DateTime
  | 0, d => d
  | n + 1, d => subDays n (prevDay d)

/-- addDays models adding a timedelta of n whole days. -/
def addDays : Nat → DateTime → DateTime
  | 0, d => d
  | n + 1, d => addDays n (nextDay d)

/-- atStartOfDay models replace(hour=0, minute=0, second=0,
microsecond=0). -/
def atStartOfDay (d : DateTime) : DateTime :=
  { d with hour := 0, minute := 0, second := 0, microsecond := 0 }

/-- atEndOfDay models replace(hour=23, minute=59, second=59,
microsecond=999999). -/
def atEndOfDay (d : DateTime) : DateTime :=
  { d with hour := 23, minute := 59, second := 59, microsecond := 999999 }

/-- get_monthly_period embeds get_monthly_period (src/config_utils.py lines
639 to 654): the first day of the reference month at the start of day, and
the last day of the month, from calendar.monthrange, at the end of day. -/
def get_monthly_period (d : DateTime) : DateTime × DateTime :=
  (atStartOfDay { d with day := 1 },
   atEndOfDay { d with day := daysInMonth d.year d.month })

/-- get_weekly_period embeds get_weekly_period (src/config_utils.py lines
657 to 673): subtract weekday() days from the reference date and zero the
time to get the start; the end is the start plus a timedelta of 6 days, 23
hours, 59 minutes, 59 seconds and 999999 microseconds, which lands on the
sixth following day at the end of day because the start time is zero. -/
def get_weekly_period (d : DateTime) : DateTime × DateTime :=
  let start := atStartOfDay (subDays (weekday d) d)
  (start, atEndOfDay (addDays 6 start))

/-- cfgA is a small concrete configuration used to instantiate the general
theorems on concrete inputs. -/
def cfgA : Config :=
  { settings := { default_category := "Other".data, auto_categorize := true },
    categories := [("Food".data, ⟨["Supermarket".data], ["food".data]⟩),
                   ("Transport".data, ⟨["Uber".data], ["taxi".data]⟩)],
    budgets := [],
    budget_settings := { warning_threshold := 80, alert_threshold := 100 } }

/-- budFood is a concrete budget definition: 200 per month, active. -/
def budFood : BudgetDef :=
  { amount := 200, period := "monthly".data, start_date := [], is_active := true }

/-- cfgBudget is a concrete configuration holding one budget of 200 for the
Food category, with warning threshold 80 and alert threshold 100. -/
def cfgBudget : Config :=
  { settings := { default_category := "Other".data, auto_categorize := true },
    categories := [],
    budgets := [("Food".data, budFood)],
    budget_settings := { warning_threshold := 80, alert_threshold := 100 } }

/-- cfgEmptyStore is a configuration whose single category lists the empty
string as one of its stores. -/
def cfgEmptyStore : Config :=
  { settings := { default_category := "Other".data, auto_categorize := true },
    categories := [("Mystery".data, ⟨[[]], []⟩)],
    budgets := [],
    budget_settings := { warning_threshold := 80, alert_threshold := 100 } }

/-- budgetsOnlyFood is a budget set defining a budget for Food only. -/
def budgetsOnlyFood : List (Word × BudgetDef) := [("Food".data, budFood)]

/-- txnsTravel is a period-filtered transaction set whose single
transaction belongs to a category without a budget. -/
def txnsTravel : List Txn := [{ category := "Travel".data, amount := 50 }]

/-- itemsPaused is a recurring item set whose single item is paused. -/
def itemsPaused : List RecurringItem :=
  [{ name := "Netflix".data, amount := 10, frequency := "Monthly".data,
     status := "Paused".data }]

/-- insertSorted only rearranges: the result is a permutation of consing
the element. -/
theorem insertSorted_perm (x : Word) (l : List Word) :
    List.Perm (insertSorted x l) (x :: l) := by
  induction l with
  | nil => simp [insertSorted]
  | cons y t ih =>
    simp only [insertSorted]
    split
    · exact List.Perm.refl _
    · exact (ih.cons y).trans (List.Perm.swap x y t)

/-- sortWords only rearranges: the result is a permutation of the input. -/
theorem sortWords_perm (l : List Word) : List.Perm (sortWords l) l := by
  induction l with
  | nil => exact List.Perm.refl _
  | cons y t ih => exact (insertSorted_perm y (sortWords t)).trans (ih.cons y)

/-- C6: for a private identity, an unreadable private partition together
with a readable shared partition of n rows merges to exactly those n rows
tagged shared, without an error; in general every unreadable partition
contributes nothing, and the merge is the concatenation of the readable
partitions, private rows first, each row stamped with the tag of its
partition. -/
theorem merge_failure_isolation :
    (∀ (α : Type) (rows : List α),
      get_user_and_shared_data none (some rows) = tagRows rows "shared".data) ∧
    (∀ (α : Type) (u s : Option (List α)),
      get_user_and_shared_data u s =
        tagRows (u.getD []) "personal".data ++ tagRows (s.getD []) "shared".data) := by
  constructor
  · intro α rows
    cases rows with
    | nil => rfl
    | cons a t => simp [get_user_and_shared_data, tagRows]
  · intro α u s
    cases u with
    | none =>
      cases s with
      | none => rfl
      | some rows =>
        cases rows with
        | nil => rfl
        | cons a t => simp [get_user_and_shared_data, tagRows]
    | some rows =>
      cases rows with
      | nil =>
        cases s with
        | none => rfl
        | some rows2 =>
          cases rows2 with
          | nil => rfl
          | cons b t2 => simp [get_user_and_shared_data, tagRows]
      | cons a t =>
        cases s with
        | none => simp [get_user_and_shared_data, tagRows]
        | some rows2 =>
          cases rows2 with
          | nil => simp [get_user_and_shared_data, tagRows]
          | cons b t2 => simp [get_user_and_shared_data, tagRows]

/-- C2 counterexample: a single paused item of amount 10 contributes 120 to
the estimate computed by the source, while the claim says paused items
contribute nothing. -/
theorem yearly_cost_ignores_status_countereg :
    est_yearly_cost itemsPaused = 120 ∧
    yearly_cost_active_spec itemsPaused = 0 ∧
    est_yearly_cost itemsPaused ≠ yearly_cost_active_spec itemsPaused := by
  have hb : ((("Paused".data : Word)) == "Active".data) = false := by decide
  have h1 : est_yearly_cost itemsPaused = 120 := by
    norm_num [est_yearly_cost, itemsPaused]
  have h2 : yearly_cost_active_spec itemsPaused = 0 := by
    simp [yearly_cost_active_spec, itemsPaused, List.filter, hb]
  exact ⟨h1, h2, by rw [h1, h2]; norm_num⟩

/-- C2 amended: the yearly cost estimate equals the sum of the amounts of
ALL items, of any status, times 12; paused and cancelled items contribute
like active ones, and frequency is ignored as the claim says. -/
theorem yearly_cost_amended (items : List RecurringItem) :
    est_yearly_cost items = ((items.map (fun i => i.amount)).sum) * 12 := by
  cases items with
  | nil => simp [est_yearly_cost]
  | cons a t => simp [est_yearly_cost]

/-- An indicator sum over a list avoiding the key is zero. -/
theorem sum_indicator_zero (a : Word) (v : ℚ) (K : List Word) (ha : a ∉ K) :
    (K.map (fun k => if a = k then v else 0)).sum = 0 := by
  induction K with
  | nil => simp
  | cons y t ih =>
    have hay : ¬(a = y) := fun h => ha (h ▸ List.mem_cons_self a t)
    have hat : a ∉ t := fun h => ha (List.mem_cons_of_mem y h)
    simp [hay, ih hat]

/-- An indicator sum over a duplicate-free list containing the key is the
indicated value. -/
theorem sum_indicator (a : Word) (v : ℚ) (K : List Word) (hnd : K.Nodup) (ha : a ∈ K) :
    (K.map (fun k => if a = k then v else 0)).sum = v := by
  induction K with
  | nil => cases ha
  | cons y t ih =>
    rcases List.mem_cons.mp ha with h | h
    · subst h
      have hat : a ∉ t := (List.nodup_cons.mp hnd).1
      simp [sum_indicator_zero a v t hat]
    · have hay : ¬(a = y) := by
        intro he
        exact (List.nodup_cons.mp hnd).1 (he ▸ h)
      simp [hay, ih (List.nodup_cons.mp hnd).2 h]

/-- catSpend unfolded one transaction at a time. -/
theorem catSpend_cons (x : Txn) (txns : List Txn) (k : Word) :
    catSpend (x :: txns) k = (if x.category = k then x.amount else 0) + catSpend txns k := by
  unfold catSpend
  by_cases h : x.category = k <;> simp [List.filter_cons, h]

/-- Summing per-category totals over any duplicate-free key list covering
every category of the transactions gives the plain sum of all amounts. -/
theorem sum_catSpend_eq (txns : List Txn) (K : List Word) (hnd : K.Nodup)
    (hcov : ∀ t ∈ txns, t.category ∈ K) :
    (K.map (fun k => catSpend txns k)).sum = (txns.map Txn.amount).sum := by
  induction txns with
  | nil =>
    have : (K.map (fun k => catSpend ([] : List Txn) k)) = K.map (fun _ => (0 : ℚ)) := by
      simp [catSpend]
    rw [this]
    induction K with
    | nil => simp
    | cons y t ihK => simp [ihK]
  | cons x rest ih =>
    have hx : x.category ∈ K := hcov x (List.mem_cons_self x rest)
    have hrest : ∀ t ∈ rest, t.category ∈ K := fun t ht => hcov t (List.mem_cons_of_mem x ht)
    calc (K.map (fun k => catSpend (x :: rest) k)).sum
        = (K.map (fun k => (if x.category = k then x.amount else 0) + catSpend rest k)).sum := by
          simp only [catSpend_cons]
      _ = (K.map (fun k => if x.category = k then x.amount else 0)).sum
            + (K.map (fun k => catSpend rest k)).sum := by
          rw [← List.sum_map_add]
      _ = x.amount + (rest.map Txn.amount).sum := by
          rw [sum_indicator x.category x.amount K hnd hx, ih hrest]
      _ = ((x :: rest).map Txn.amount).sum := by simp

/-- C1 counterexample: with a budget set containing only Food and a period
transaction set spending 50 in the budgetless Travel category, the source
computes total_spent = 50 while the claim prescribes 0: spending in
categories without a budget does contribute. -/
theorem total_spent_unrestricted_countereg :
    total_spent txnsTravel = 50 ∧
    total_spent_budgeted_spec budgetsOnlyFood txnsTravel = 0 ∧
    total_spent txnsTravel ≠ total_spent_budgeted_spec budgetsOnlyFood txnsTravel := by
  have hk : hasKey budgetsOnlyFood ("Travel".data) = false := by decide
  have hsp : spending_by_category txnsTravel = [("Travel".data, catSpend txnsTravel ("Travel".data))] := by
    simp [spending_by_category, txnsTravel]
  have hcs : catSpend txnsTravel ("Travel".data) = 50 := by
    simp [catSpend, txnsTravel]
  have h1 : total_spent txnsTravel = 50 := by
    simp [total_spent, hsp, hcs]
  have h2 : total_spent_budgeted_spec budgetsOnlyFood txnsTravel = 0 := by
    simp [total_spent_budgeted_spec, hsp, List.filter, hk]
  exact ⟨h1, h2, by rw [h1, h2]; norm_num⟩

/-- C1 amended: total_budgeted is the sum of the amounts of exactly the
budget definitions whose is_active flag is true, as the claim says; but
total_spent is the sum of the per-category spending over ALL categories
occurring in the period-filtered transactions, equal to the plain sum of
all their amounts — it is not restricted to categories with a budget. -/
theorem aggregate_totals_amended :
    (∀ budgets : List (Word × BudgetDef),
      total_budgeted budgets =
        ((budgets.filter (fun e => e.2.is_active)).map (fun e => e.2.amount)).sum) ∧
    (∀ txns : List Txn, total_spent txns = (txns.map Txn.amount).sum) := by
  constructor
  · intro budgets
    rfl
  · intro txns
    unfold total_spent spending_by_category
    rw [List.map_map]
    have hmap : (Prod.snd ∘ fun k => (k, catSpend txns k)) = fun k => catSpend txns k := rfl
    rw [hmap]
    exact sum_catSpend_eq txns ((txns.map Txn.category).dedup)
      ((txns.map Txn.category).nodup_dedup)
      (fun t ht => List.mem_dedup.mpr (List.mem_map_of_mem Txn.category ht))

/-- C7 counterexample: in a configuration whose category Mystery lists the
empty string among its stores, the empty store name takes the exact-match
branch and is categorized as Mystery, not as the default category — so the
claim does not hold for every configuration. -/
theorem empty_store_name_countereg :
    auto_categorize_store cfgEmptyStore [] = "Mystery".data ∧
    auto_categorize_store cfgEmptyStore [] ≠ cfgEmptyStore.settings.default_category := by
  decide

/-- C7 amended: in every configuration in which no category lists a store
lowering to the empty string and no category holds a keyword lowering to
the empty string, categorize applied to the empty store name matches no
store and no keyword and falls through to the default category. -/
theorem empty_store_name_amended (c : Config)
    (hs : ∀ e ∈ c.categories, ∀ w ∈ e.2.stores, lowerW w ≠ ([] : Word))
    (hk : ∀ e ∈ c.categories, ∀ k ∈ e.2.keywords, lowerW k ≠ ([] : Word)) :
    auto_categorize_store c [] = c.settings.default_category := by
  unfold auto_categorize_store
  cases hauto : c.settings.auto_categorize with
  | false => simp
  | true =>
    have h1 : c.categories.find? (fun e => storeMatch (lowerW []) e.2) = none := by
      rw [List.find?_eq_none]
      intro e he
      simp only [storeMatch, lowerW, List.map_nil]
      simp only [List.contains, List.elem_eq_mem, List.mem_map, decide_eq_true_eq]
      rintro ⟨w, hw, hlow⟩
      exact hs e he w hw hlow
    have h2 : c.categories.find? (fun e => keywordMatch (lowerW []) e.2) = none := by
      rw [List.find?_eq_none]
      intro e he
      simp only [keywordMatch, lowerW, List.map_nil, List.any_eq_true]
      rintro ⟨k, hkm, hsub⟩
      have : (lowerW k).isEmpty = true := hsub
      exact hk e he k hkm (List.isEmpty_iff.mp this)
    rw [h1, h2]
    simp

/-- C7 amended, instantiated: the concrete configuration cfgA has no empty
store and no empty keyword, and categorizes the empty name as the default
category. -/
theorem empty_store_name_amended_witness :
    auto_categorize_store cfgA [] = cfgA.settings.default_category :=
  empty_store_name_amended cfgA (by decide) (by decide)

/-- C3: with auto-categorization enabled, whenever the first store-list
match over the categories in iteration order is category C — a condition
on the store lists alone, visible to every keyword configuration — the
categorizer returns C: an exact store match takes priority over keyword
matches. -/
theorem exact_store_match_priority (c : Config) (s cat : Word) (d : CatData)
    (henabled : c.settings.auto_categorize = true)
    (hfind : c.categories.find? (fun e => storeMatch (lowerW s) e.2) = some (cat, d)) :
    auto_categorize_store c s = cat := by
  simp [auto_categorize_store, henabled, hfind]

/-- C3 instantiated: in cfgA the store name UBER, which matches the store
Uber of Transport case-insensitively, is categorized as Transport. -/
theorem exact_store_match_priority_witness :
    cfgA.settings.auto_categorize = true ∧
    auto_categorize_store cfgA ("UBER".data) = "Transport".data :=
  ⟨rfl, exact_store_match_priority cfgA ("UBER".data) ("Transport".data)
    ⟨["Uber".data], ["taxi".data]⟩ rfl (by decide)⟩

/-- C10: whenever one of the five mutating operations returns false, the
in-memory configuration it returns is exactly the configuration it was
given — a failed validation mutates nothing. -/
theorem validation_failure_atomic (c : Config) (a b : Word) :
    ((add_category c a).1 = false → (add_category c a).2 = c) ∧
    ((remove_category c a).1 = false → (remove_category c a).2 = c) ∧
    ((rename_category c a b).1 = false → (rename_category c a b).2 = c) ∧
    ((add_store_to_category c a b).1 = false → (add_store_to_category c a b).2 = c) ∧
    ((remove_store_from_category c a b).1 = false → (remove_store_from_category c a b).2 = c) := by
  refine ⟨?_, ?_, ?_, ?_, ?_⟩
  · unfold add_category
    split <;> simp
  · unfold remove_category
    split <;> simp
  · unfold rename_category
    split
    · split <;> simp
    · simp
  · unfold add_store_to_category
    split
    · simp
    · split <;> simp
  · unfold remove_store_from_category
    split
    · simp
    · split <;> simp

/-- C10 instantiated on cfgA: adding an existing category, removing a
missing category, renaming a missing category, adding a duplicate store and
removing a missing store all return false and leave the configuration
untouched. -/
theorem validation_failure_atomic_witness :
    ((add_category cfgA ("Food".data)).1 = false ∧
      (add_category cfgA ("Food".data)).2 = cfgA) ∧
    ((remove_category cfgA ("Missing".data)).1 = false ∧
      (remove_category cfgA ("Missing".data)).2 = cfgA) ∧
    ((rename_category cfgA ("Missing".data) ("New".data)).1 = false ∧
      (rename_category cfgA ("Missing".data) ("New".data)).2 = cfgA) ∧
    ((add_store_to_category cfgA ("Food".data) ("Supermarket".data)).1 = false ∧
      (add_store_to_category cfgA ("Food".data) ("Supermarket".data)).2 = cfgA) ∧
    ((remove_store_from_category cfgA ("Food".data) ("Acme".data)).1 = false ∧
      (remove_store_from_category cfgA ("Food".data) ("Acme".data)).2 = cfgA) :=
  ⟨⟨by decide, (validation_failure_atomic cfgA ("Food".data) ("Food".data)).1 (by decide)⟩,
   ⟨by decide, (validation_failure_atomic cfgA ("Missing".data) ("New".data)).2.1 (by decide)⟩,
   ⟨by decide, (validation_failure_atomic cfgA ("Missing".data) ("New".data)).2.2.1 (by decide)⟩,
   ⟨by decide, (validation_failure_atomic cfgA ("Food".data) ("Supermarket".data)).2.2.2.1 (by decide)⟩,
   ⟨by decide, (validation_failure_atomic cfgA ("Food".data) ("Acme".data)).2.2.2.2 (by decide)⟩⟩

/-- Updating a key in place and then looking it up returns the new value
exactly when the key was present. -/
theorem lookupKey_setKey (l : List (Word × α)) (k : Word) (v : α) :
    lookupKey (setKey l k v) k = (lookupKey l k).map (fun _ => v) := by
  induction l with
  | nil => rfl
  | cons e t ih =>
    by_cases h : e.1 = k
    · simp [lookupKey, setKey, List.find?_cons, h]
    · have hb : (e.1 == k) = false := by simp [h]
      simp only [lookupKey, setKey] at ih ⊢
      simp only [List.map_cons, hb, Bool.false_eq_true, if_false]
      rw [List.find?_cons, List.find?_cons]
      simp only [hb]
      exact ih

/-- C8: adding a store that an existing category does not yet hold returns
true and leaves the store in the category store list exactly once, and an
immediately repeated identical call returns false and leaves the
configuration unchanged. -/
theorem add_store_idem (c : Config) (cat store : Word) (d : CatData)
    (hcat : lookupKey c.categories cat = some d)
    (hnew : store ∉ d.stores) :
    (add_store_to_category c cat store).1 = true ∧
    (∃ d2, lookupKey (add_store_to_category c cat store).2.categories cat = some d2 ∧
      d2.stores.count store = 1) ∧
    add_store_to_category (add_store_to_category c cat store).2 cat store =
      (false, (add_store_to_category c cat store).2) := by
  have hco : d.stores.contains store = false := by
    simp only [List.contains, List.elem_eq_mem, decide_eq_false_iff_not]
    exact hnew
  have hres : add_store_to_category c cat store =
      (true, { c with categories := setKey c.categories cat (⟨sortWords (d.stores ++ [store]), d.keywords⟩ : CatData) }) := by
    unfold add_store_to_category
    rw [hcat]
    simp [hco, hnew]
  have hlook :
      lookupKey (add_store_to_category c cat store).2.categories cat =
        some (⟨sortWords (d.stores ++ [store]), d.keywords⟩ : CatData) := by
    rw [hres]
    show lookupKey (setKey c.categories cat _) cat = _
    rw [lookupKey_setKey, hcat]
    rfl
  have hperm := sortWords_perm (d.stores ++ [store])
  have hcount : (sortWords (d.stores ++ [store])).count store = 1 := by
    show List.countP (fun w => w == store) (sortWords (d.stores ++ [store])) = 1
    rw [hperm.countP_eq]
    rw [List.countP_append]
    have hz : List.countP (fun w => w == store) d.stores = 0 := by
      rw [List.countP_eq_zero]
      intro a ha
      simp only [beq_iff_eq]
      intro he
      exact hnew (he ▸ ha)
    simp [hz, List.countP_cons]
  have hmem : store ∈ sortWords (d.stores ++ [store]) := by
    rw [hperm.mem_iff]
    exact List.mem_append_right _ (List.mem_singleton.mpr rfl)
  refine ⟨by rw [hres], ⟨_, hlook, hcount⟩, ?_⟩
  have hcontains2 : (sortWords (d.stores ++ [store])).contains store = true := by
    simp only [List.contains, List.elem_eq_mem, decide_eq_true_eq]
    exact hmem
  set c2 := (add_store_to_category c cat store).2 with hc2
  unfold add_store_to_category
  rw [hlook]
  simp [hcontains2, hmem]

/-- C8 instantiated on cfgA: adding Acme to Food succeeds, Acme then occurs
exactly once in the Food store list, and repeating the call returns false
and changes nothing. -/
theorem add_store_idem_witness :
    (add_store_to_category cfgA ("Food".data) ("Acme".data)).1 = true ∧
    (∃ d2, lookupKey (add_store_to_category cfgA ("Food".data) ("Acme".data)).2.categories
        ("Food".data) = some d2 ∧ d2.stores.count ("Acme".data) = 1) ∧
    add_store_to_category (add_store_to_category cfgA ("Food".data) ("Acme".data)).2
        ("Food".data) ("Acme".data) =
      (false, (add_store_to_category cfgA ("Food".data) ("Acme".data)).2) :=
  add_store_idem cfgA ("Food".data) ("Acme".data)
    ⟨["Supermarket".data], ["food".data]⟩ (by decide) (by decide)

/-- Erasing by key commutes with taking the key sequence. -/
theorem keysOf_eraseP (l : List (Word × CatData)) (k : Word) :
    keysOf (l.eraseP (fun e => e.1 == k)) = (keysOf l).eraseP (fun w => w == k) := by
  induction l with
  | nil => rfl
  | cons e t ih =>
    by_cases h : e.1 = k
    · simp [keysOf, List.eraseP_cons, h]
    · have hb : (e.1 == k) = false := by simp [h]
      simp only [keysOf, List.eraseP_cons, hb, List.map_cons]
      simpa [keysOf] using ih

/-- C9: a successful rename removes the old name from the category
sequence and appends the new name at its end, so the renamed category drops
to the lowest priority in the first-match-wins iteration order. -/
theorem rename_moves_to_end (c : Config) (o n : Word)
    (ho : hasKey c.categories o = true) (hn : hasKey c.categories n = false) :
    (rename_category c o n).1 = true ∧
    get_categories (rename_category c o n).2 = (get_categories c).erase o ++ [n] := by
  obtain ⟨d, hd⟩ : ∃ d, lookupKey c.categories o = some d := by
    rcases hx : lookupKey c.categories o with _ | d
    · rw [hasKey, hx] at ho
      cases ho
    · exact ⟨d, rfl⟩
  have homem : o ∈ keysOf c.categories := by
    have hd2 := hd
    unfold lookupKey at hd2
    rcases hf : c.categories.find? (fun e => e.1 == o) with _ | e
    · rw [hf] at hd2
      cases hd2
    · have hmem := List.mem_of_find?_eq_some hf
      have hpe := List.find?_some hf
      have heq : e.1 = o := by simpa using hpe
      exact heq ▸ List.mem_map_of_mem Prod.fst hmem
  have hres : rename_category c o n =
      (true, { c with
        categories := (c.categories ++ [(n, d)]).eraseP (fun e => e.1 == o),
        settings := if c.settings.default_category == o then
            { c.settings with default_category := n }
          else c.settings }) := by
    unfold rename_category
    rw [ho, hn, hd]
    simp
  refine ⟨by rw [hres], ?_⟩
  rw [hres]
  show keysOf ((c.categories ++ [(n, d)]).eraseP (fun e => e.1 == o)) = _
  rw [keysOf_eraseP]
  have hk : keysOf (c.categories ++ [(n, d)]) = keysOf c.categories ++ [n] := by
    simp [keysOf]
  rw [hk]
  rw [@List.eraseP_append_left Word (fun w => w == o) o (by simp) (keysOf c.categories) [n] homem]
  rw [← List.erase_eq_eraseP']
  rfl

/-- C9 instantiated on cfgA: renaming Food to Groceries succeeds and the
category order becomes Transport then Groceries. -/
theorem rename_moves_to_end_witness :
    (rename_category cfgA ("Food".data) ("Groceries".data)).1 = true ∧
    get_categories (rename_category cfgA ("Food".data) ("Groceries".data)).2 =
      (get_categories cfgA).erase ("Food".data) ++ ["Groceries".data] :=
  rename_moves_to_end cfgA ("Food".data) ("Groceries".data) (by decide) (by decide)

/-- C4: when a budget exists for the category with positive amount, the
percentage is spent over amount times 100, the remaining is amount minus
spent, and the label follows the alert-then-warning-then-ok threshold
order; when no budget exists the label is no_budget whatever the
thresholds; and on the concrete data of the claim (amount 200, thresholds
80 and 100) spending 150, 170 and 250 gives 75 percent ok, 85 percent
warning, and 125 percent with remaining -50 and alert. -/
theorem budget_status_spec :
    (∀ (c : Config) (cat : Word) (spent : ℚ) (b : BudgetDef),
      lookupKey c.budgets cat = some b → 0 < b.amount →
        ((calculate_budget_status c cat spent).has_budget = true ∧
         (calculate_budget_status c cat spent).percentage = spent / b.amount * 100 ∧
         (calculate_budget_status c cat spent).remaining = b.amount - spent ∧
         (calculate_budget_status c cat spent).status =
           (if spent / b.amount * 100 ≥ (c.budget_settings.alert_threshold : ℚ) then
              "alert".data
            else if spent / b.amount * 100 ≥ (c.budget_settings.warning_threshold : ℚ) then
              "warning".data
            else "ok".data))) ∧
    (∀ (c : Config) (cat : Word) (spent : ℚ),
      lookupKey c.budgets cat = none →
        (calculate_budget_status c cat spent).status = "no_budget".data) ∧
    ((calculate_budget_status cfgBudget ("Food".data) 150).percentage = 75 ∧
     (calculate_budget_status cfgBudget ("Food".data) 150).status = "ok".data ∧
     (calculate_budget_status cfgBudget ("Food".data) 170).percentage = 85 ∧
     (calculate_budget_status cfgBudget ("Food".data) 170).status = "warning".data ∧
     (calculate_budget_status cfgBudget ("Food".data) 250).percentage = 125 ∧
     (calculate_budget_status cfgBudget ("Food".data) 250).remaining = -50 ∧
     (calculate_budget_status cfgBudget ("Food".data) 250).status = "alert".data) := by
  have hb : lookupKey cfgBudget.budgets ("Food".data) = some budFood := rfl
  refine ⟨?_, ?_, ?_⟩
  · intro c cat spent b hbc hpos
    have hne : ¬(b.amount = 0) := ne_of_gt hpos
    unfold calculate_budget_status
    rw [hbc]
    simp [hne]
  · intro c cat spent hnone
    unfold calculate_budget_status
    rw [hnone]
  · refine ⟨?_, ?_, ?_, ?_, ?_, ?_, ?_⟩ <;>
      (unfold calculate_budget_status; rw [hb]; norm_num [budFood, cfgBudget])

/-- C4 instantiated: cfgBudget holds a positive budget of 200 for Food, and
the general theorem evaluated there at spending 170 gives percentage
170 / 200 * 100. -/
theorem budget_status_spec_witness :
    lookupKey cfgBudget.budgets ("Food".data) = some budFood ∧
    (0 : ℚ) < budFood.amount ∧
    (calculate_budget_status cfgBudget ("Food".data) 170).percentage =
      170 / budFood.amount * 100 :=
  ⟨rfl, by norm_num [budFood],
   (budget_status_spec.1 cfgBudget ("Food".data) 170 budFood rfl
     (by norm_num [budFood])).2.1⟩

theorem daysInMonth_pos (y m : Nat) (h1 : 1 ≤ m) (h12 : m ≤ 12) :
    1 ≤ daysInMonth y m := by
  interval_cases m
  all_goals simp [daysInMonth]
  split <;> norm_num

theorem daysBeforeMonth_succ (y m : Nat) (h : 1 ≤ m) :
    daysBeforeMonth y (m + 1) = daysBeforeMonth y m + daysInMonth y m := by
  match m, h with
  | m + 1, _ => rfl

theorem daysBeforeMonth_12_add (y : Nat) :
    daysBeforeMonth y 12 + daysInMonth y 12 = if isLeap y then 366 else 365 := by
  have e2 : daysBeforeMonth y 2 = daysBeforeMonth y 1 + daysInMonth y 1 :=
    daysBeforeMonth_succ y 1 (by norm_num)
  have e3 : daysBeforeMonth y 3 = daysBeforeMonth y 2 + daysInMonth y 2 :=
    daysBeforeMonth_succ y 2 (by norm_num)
  have e4 : daysBeforeMonth y 4 = daysBeforeMonth y 3 + daysInMonth y 3 :=
    daysBeforeMonth_succ y 3 (by norm_num)
  have e5 : daysBeforeMonth y 5 = daysBeforeMonth y 4 + daysInMonth y 4 :=
    daysBeforeMonth_succ y 4 (by norm_num)
  have e6 : daysBeforeMonth y 6 = daysBeforeMonth y 5 + daysInMonth y 5 :=
    daysBeforeMonth_succ y 5 (by norm_num)
  have e7 : daysBeforeMonth y 7 = daysBeforeMonth y 6 + daysInMonth y 6 :=
    daysBeforeMonth_succ y 6 (by norm_num)
  have e8 : daysBeforeMonth y 8 = daysBeforeMonth y 7 + daysInMonth y 7 :=
    daysBeforeMonth_succ y 7 (by norm_num)
  have e9 : daysBeforeMonth y 9 = daysBeforeMonth y 8 + daysInMonth y 8 :=
    daysBeforeMonth_succ y 8 (by norm_num)
  have e10 : daysBeforeMonth y 10 = daysBeforeMonth y 9 + daysInMonth y 9 :=
    daysBeforeMonth_succ y 9 (by norm_num)
  have e11 : daysBeforeMonth y 11 = daysBeforeMonth y 10 + daysInMonth y 10 :=
    daysBeforeMonth_succ y 10 (by norm_num)
  have e12 : daysBeforeMonth y 12 = daysBeforeMonth y 11 + daysInMonth y 11 :=
    daysBeforeMonth_succ y 11 (by norm_num)
  rw [e12, e11, e10, e9, e8, e7, e6, e5, e4, e3, e2]
  cases h : isLeap y <;> simp [daysBeforeMonth, daysInMonth, h]

set_option maxHeartbeats 1600000 in
theorem daysBeforeYear_succ (y : Nat) (hy : 1 ≤ y) :
    daysBeforeYear (y + 1) = daysBeforeYear y + (if isLeap y then 366 else 365) := by
  have hform : ∀ z : Nat, daysBeforeYear z =
      (z - 1) * 365 + (z - 1) / 4 - (z - 1) / 100 + (z - 1) / 400 := fun z => rfl
  rw [hform, hform, Nat.add_sub_cancel]
  cases hl : isLeap y with
  | true =>
    simp only [isLeap, Bool.or_eq_true, Bool.and_eq_true, beq_iff_eq, bne_iff_ne] at hl
    rw [if_pos rfl]
    omega
  | false =>
    simp only [isLeap, Bool.or_eq_false_iff, Bool.and_eq_false_iff,
      beq_eq_false_iff_ne, bne_eq_false_iff_eq, ne_eq] at hl
    rw [if_neg (by simp)]
    omega

theorem dateValid_mk (y m dd h mi sec us : Nat) :
    DateValid ⟨y, m, dd, h, mi, sec, us⟩ ↔
      (1 ≤ y ∧ 1 ≤ m ∧ m ≤ 12 ∧ 1 ≤ dd ∧ dd ≤ daysInMonth y m) := Iff.rfl

theorem toOrdinal_mk (y m dd h mi sec us : Nat) :
    toOrdinal ⟨y, m, dd, h, mi, sec, us⟩ = daysBeforeYear y + daysBeforeMonth y m + dd := rfl

theorem toOrdinal_prevDay (d : DateTime) (hv : DateValid d) (h2 : 2 ≤ toOrdinal d) :
    DateValid (prevDay d) ∧ toOrdinal (prevDay d) + 1 = toOrdinal d := by
  obtain ⟨hy, hm1, hm12, hd1, hdim⟩ := hv
  unfold prevDay
  by_cases hd2 : 2 ≤ d.day
  · rw [if_pos hd2]
    constructor
    · rw [dateValid_mk]
      omega
    · rw [toOrdinal_mk, toOrdinal]
      omega
  · by_cases hm2 : 2 ≤ d.month
    · rw [if_neg hd2, if_pos hm2]
      have hdd : d.day = 1 := by omega
      have hmth : daysBeforeMonth d.year d.month =
          daysBeforeMonth d.year (d.month - 1) + daysInMonth d.year (d.month - 1) := by
        have hs := daysBeforeMonth_succ d.year (d.month - 1) (by omega)
        rw [show d.month - 1 + 1 = d.month from by omega] at hs
        exact hs
      have hp := daysInMonth_pos d.year (d.month - 1) (by omega) (by omega)
      constructor
      · rw [dateValid_mk]
        omega
      · rw [toOrdinal_mk, toOrdinal]
        omega
    · rw [if_neg hd2, if_neg hm2]
      have hdd : d.day = 1 := by omega
      have hmm : d.month = 1 := by omega
      have hy2 : 2 ≤ d.year := by
        by_contra hlt
        have hy1 : d.year = 1 := by omega
        rw [toOrdinal, hy1, hmm, hdd] at h2
        simp [daysBeforeYear, daysBeforeMonth] at h2
      have hys := daysBeforeYear_succ (d.year - 1) (by omega)
      rw [show d.year - 1 + 1 = d.year from by omega] at hys
      have h12 := daysBeforeMonth_12_add (d.year - 1)
      have hdim12 : daysInMonth (d.year - 1) 12 = 31 := rfl
      rw [hdim12] at h12
      have hbm1 : daysBeforeMonth d.year 1 = 0 := rfl
      constructor
      · rw [dateValid_mk]
        omega
      · rw [toOrdinal_mk, toOrdinal, hmm, hdd]
        omega

theorem toOrdinal_nextDay (d : DateTime) (hv : DateValid d) :
    DateValid (nextDay d) ∧ toOrdinal (nextDay d) = toOrdinal d + 1 := by
  obtain ⟨hy, hm1, hm12, hd1, hdim⟩ := hv
  unfold nextDay
  by_cases hlt : d.day < daysInMonth d.year d.month
  · rw [if_pos hlt]
    constructor
    · rw [dateValid_mk]
      omega
    · rw [toOrdinal_mk, toOrdinal]
      omega
  · by_cases hm : d.month < 12
    · rw [if_neg hlt, if_pos hm]
      have hdm : d.day = daysInMonth d.year d.month := by omega
      have hsucc := daysBeforeMonth_succ d.year d.month hm1
      have hp := daysInMonth_pos d.year (d.month + 1) (by omega) (by omega)
      constructor
      · rw [dateValid_mk]
        omega
      · rw [toOrdinal_mk, toOrdinal]
        omega
    · rw [if_neg hlt, if_neg hm]
      have hm12e : d.month = 12 := by omega
      have hdim12 : daysInMonth d.year 12 = 31 := rfl
      have hdm : d.day = 31 := by
        rw [hm12e] at hdim hlt
        rw [hdim12] at hdim hlt
        omega
      have hys := daysBeforeYear_succ d.year hy
      have h12 := daysBeforeMonth_12_add d.year
      rw [hdim12] at h12
      have hbm1 : daysBeforeMonth (d.year + 1) 1 = 0 := rfl
      have hdimb : daysInMonth (d.year + 1) 1 = 31 := rfl
      constructor
      · rw [dateValid_mk]
        omega
      · rw [toOrdinal_mk, toOrdinal, hm12e, hdm]
        omega

theorem toOrdinal_subDays (n : Nat) (d : DateTime) (hv : DateValid d) (hn : n < toOrdinal d) :
    DateValid (subDays n d) ∧ toOrdinal (subDays n d) = toOrdinal d - n := by
  induction n generalizing d with
  | zero => exact ⟨hv, by simp [subDays]⟩
  | succ k ih =>
    have h2 : 2 ≤ toOrdinal d := by omega
    obtain ⟨hv2, heq⟩ := toOrdinal_prevDay d hv h2
    have hk : k < toOrdinal (prevDay d) := by omega
    obtain ⟨hva, hea⟩ := ih (prevDay d) hv2 hk
    refine ⟨hva, ?_⟩
    show toOrdinal (subDays k (prevDay d)) = toOrdinal d - (k + 1)
    rw [hea]
    omega

theorem toOrdinal_addDays (n : Nat) (d : DateTime) (hv : DateValid d) :
    DateValid (addDays n d) ∧ toOrdinal (addDays n d) = toOrdinal d + n := by
  induction n generalizing d with
  | zero => exact ⟨hv, by simp [addDays]⟩
  | succ k ih =>
    obtain ⟨hv2, heq⟩ := toOrdinal_nextDay d hv
    obtain ⟨hva, hea⟩ := ih (nextDay d) hv2
    refine ⟨hva, ?_⟩
    show toOrdinal (addDays k (nextDay d)) = toOrdinal d + (k + 1)
    rw [hea, heq]
    omega

theorem toOrdinal_atStart (x : DateTime) : toOrdinal (atStartOfDay x) = toOrdinal x := rfl

theorem toOrdinal_atEnd (x : DateTime) : toOrdinal (atEndOfDay x) = toOrdinal x := rfl

theorem dateValid_atStart (x : DateTime) : DateValid (atStartOfDay x) ↔ DateValid x := Iff.rfl

theorem dateValid_atEnd (x : DateTime) : DateValid (atEndOfDay x) ↔ DateValid x := Iff.rfl

/-- C5: for every reference datetime, the monthly period runs from the
first calendar day of the reference month at the start of day to the last
calendar day, per the Gregorian month lengths and leap rule, at the end of
day, and both bounds are valid dates; for every valid reference datetime
the weekly period starts at the start of day on a Monday (weekday 0) at
most six days before the reference date, and ends six days later, a
Sunday (weekday 6), at the end of day; in particular 2024-02-15 gives
2024-02-01T00:00:00 to 2024-02-29T23:59:59.999999, and 2024-03-06, a
Wednesday, gives 2024-03-04T00:00:00 to 2024-03-10T23:59:59.999999. -/
theorem period_bounds_spec :
    (∀ d : DateTime,
      (get_monthly_period d).1 = ⟨d.year, d.month, 1, 0, 0, 0, 0⟩ ∧
      (get_monthly_period d).2 =
        ⟨d.year, d.month, daysInMonth d.year d.month, 23, 59, 59, 999999⟩) ∧
    (∀ d : DateTime, DateValid d →
      DateValid (get_monthly_period d).1 ∧ DateValid (get_monthly_period d).2) ∧
    (∀ d : DateTime, DateValid d →
      DateValid (get_weekly_period d).1 ∧
      weekday (get_weekly_period d).1 = 0 ∧
      (get_weekly_period d).1.hour = 0 ∧ (get_weekly_period d).1.minute = 0 ∧
      (get_weekly_period d).1.second = 0 ∧ (get_weekly_period d).1.microsecond = 0 ∧
      toOrdinal (get_weekly_period d).1 ≤ toOrdinal d ∧
      toOrdinal d < toOrdinal (get_weekly_period d).1 + 7 ∧
      DateValid (get_weekly_period d).2 ∧
      weekday (get_weekly_period d).2 = 6 ∧
      toOrdinal (get_weekly_period d).2 = toOrdinal (get_weekly_period d).1 + 6 ∧
      (get_weekly_period d).2.hour = 23 ∧ (get_weekly_period d).2.minute = 59 ∧
      (get_weekly_period d).2.second = 59 ∧ (get_weekly_period d).2.microsecond = 999999) ∧
    (get_monthly_period ⟨2024, 2, 15, 0, 0, 0, 0⟩ =
      (⟨2024, 2, 1, 0, 0, 0, 0⟩, ⟨2024, 2, 29, 23, 59, 59, 999999⟩)) ∧
    (get_weekly_period ⟨2024, 3, 6, 0, 0, 0, 0⟩ =
      (⟨2024, 3, 4, 0, 0, 0, 0⟩, ⟨2024, 3, 10, 23, 59, 59, 999999⟩)) ∧
    weekday ⟨2024, 3, 6, 0, 0, 0, 0⟩ = 2 := by
  refine ⟨fun d => ⟨rfl, rfl⟩, ?_, ?_, by decide, by decide, by decide⟩
  · intro d hv
    obtain ⟨hy, hm1, hm12, hd1, hdim⟩ := hv
    have hp := daysInMonth_pos d.year d.month hm1 hm12
    constructor
    · rw [show (get_monthly_period d).1 = (⟨d.year, d.month, 1, 0, 0, 0, 0⟩ : DateTime) from rfl,
        dateValid_mk]
      omega
    · rw [show (get_monthly_period d).2 =
          (⟨d.year, d.month, daysInMonth d.year d.month, 23, 59, 59, 999999⟩ : DateTime) from rfl,
        dateValid_mk]
      omega
  · intro d hv
    have hord1 : 1 ≤ toOrdinal d := by
      obtain ⟨hy, hm1, hm12, hd1, hdim⟩ := hv
      rw [toOrdinal]
      omega
    have hwd : weekday d = (toOrdinal d + 6) % 7 := rfl
    have hwlt : weekday d < toOrdinal d := by
      rw [hwd]
      omega
    obtain ⟨hvs, hords⟩ := toOrdinal_subDays (weekday d) d hv hwlt
    have h1 : (get_weekly_period d).1 = atStartOfDay (subDays (weekday d) d) := rfl
    have h2 : (get_weekly_period d).2 =
        atEndOfDay (addDays 6 (atStartOfDay (subDays (weekday d) d))) := rfl
    have hvstart : DateValid (get_weekly_period d).1 := by
      rw [h1, dateValid_atStart]
      exact hvs
    have hordstart : toOrdinal (get_weekly_period d).1 = toOrdinal d - weekday d := by
      rw [h1, toOrdinal_atStart, hords]
    have hwstart : weekday (get_weekly_period d).1 = 0 := by
      rw [weekday, hordstart, hwd]
      omega
    obtain ⟨hve, horde⟩ := toOrdinal_addDays 6 (atStartOfDay (subDays (weekday d) d))
      ((dateValid_atStart _).mpr hvs)
    have hvend : DateValid (get_weekly_period d).2 := by
      rw [h2, dateValid_atEnd]
      exact hve
    have hordend : toOrdinal (get_weekly_period d).2 = toOrdinal (get_weekly_period d).1 + 6 := by
      rw [h2, toOrdinal_atEnd, horde, h1, toOrdinal_atStart]
    have hwend : weekday (get_weekly_period d).2 = 6 := by
      rw [weekday, hordend, hordstart, hwd]
      omega
    refine ⟨hvstart, hwstart, rfl, rfl, rfl, rfl, ?_, ?_, hvend, hwend, hordend,
      rfl, rfl, rfl, rfl⟩
    · rw [hordstart]
      omega
    · rw [hordstart, hwd]
      omega

/-- C5 instantiated: the reference dates of the claim are valid dates, and
the general weekly and monthly statements evaluated there give a Monday
start and a valid month end. -/
theorem period_bounds_spec_witness :
    DateValid ⟨2024, 3, 6, 0, 0, 0, 0⟩ ∧
    weekday (get_weekly_period ⟨2024, 3, 6, 0, 0, 0, 0⟩).1 = 0 ∧
    DateValid (get_monthly_period ⟨2024, 2, 15, 0, 0, 0, 0⟩).2 :=
  ⟨by decide, (period_bounds_spec.2.2.1 ⟨2024, 3, 6, 0, 0, 0, 0⟩ (by decide)).2.1,
   (period_bounds_spec.2.1 ⟨2024, 2, 15, 0, 0, 0, 0⟩ (by decide)).2⟩

end PookieMoni
